import Mathlib

/-!
Verification of the chunking-and-synthesis pipeline of the OMS repository
(`backend/comparison_service.py`, plus the `DocumentProcessor` variant in
`comparision_service_pavs.py`), via a shallow embedding over `List Char`.

Modelling conventions:
* Python strings are `List Char`; Python slicing, `rfind`, `strip`, `split`
  and `str.join` are reproduced by the `py*` helpers below.  Whitespace is the
  ASCII whitespace set, which agrees with Python on the ASCII inputs used in
  all concrete statements.
* The external Bedrock `retrieve_and_generate` call is an opaque collaborator.
  A per-chunk service oracle has type `Nat → Option (Option (List Char))`:
  `none` models a raised service error for that call, `some resp` a returned
  response whose optional `output.text` field is `resp` (`resp = none` models
  a missing field, extracted as the empty string by `.get("text", "")`).
  The synthesis oracle `List Char → Option (Option (List Char))` likewise maps
  the synthesis prompt to the outcome of the single synthesis call.
* The `while` loop of `create_chunks_by_size` is modelled with an explicit
  fuel parameter: the `Bool` component of the result is `true` exactly when
  the loop exited through its own guard within the given fuel, and the list
  component is the chunk list accumulated so far.
* Progress-bar updates and `time.sleep` pacing have no effect on the returned
  data and are omitted.
-/

/-- Python ASCII whitespace: the characters `str.strip` (and `\s` on ASCII
text) treats as space. -/
def isPyWs (c : Char) : Bool :=
  c == ' ' || c == '\t' || c == '\n' || c == '\r' || c == Char.ofNat 11 || c == Char.ofNat 12

/-- ASCII upper-case letter, the regex class `[A-Z]`. -/
def isUpper (c : Char) : Bool :=
  'A' ≤ c && c ≤ 'Z'

/-- ASCII digit, the regex class `\d` on ASCII text. -/
def isDigitChar (c : Char) : Bool :=
  '0' ≤ c && c ≤ '9'

/-- Normalisation of a Python slice index for a string of length `n`
(the step-1 case of `PySlice_AdjustIndices`): negative indices count from the
end and everything is clamped into `[0, n]`. -/
def pyIdx (n : Nat) (i : Int) : Nat :=
  (if i < 0 then max 0 ((n : Int) + i) else min i (n : Int)).toNat

/-- Python slice `xs[a:b]` (step 1). -/
def pySlice (xs : List Char) (a b : Int) : List Char :=
  (xs.take (pyIdx xs.length b)).drop (pyIdx xs.length a)

/-- Python `str.strip()`: drop leading and trailing whitespace. -/
def pyStrip (xs : List Char) : List Char :=
  ((xs.dropWhile isPyWs).reverse.dropWhile isPyWs).reverse

/-- Python `xs.rfind(pat)`: the largest index at which `pat` occurs in `xs`,
or `-1` when it does not occur. -/
def pyRfind (xs pat : List Char) : Int :=
  (List.range (xs.length + 1)).foldl
    (fun r i => if pat.isPrefixOf (xs.drop i) then (i : Int) else r) (-1)

/-- The smallest index at which `pat` occurs in `xs`, if any
(Python `xs.find(pat)` restricted to the found case). -/
def pyFindIdx (xs pat : List Char) : Option Nat :=
  (List.range (xs.length + 1)).find? (fun i => pat.isPrefixOf (xs.drop i))

/-- Worker for `pySplit`; the fuel is always sufficient because every
separator occurrence consumes at least one character. -/
def pySplitAux (sep : List Char) : Nat → List Char → List (List Char)
  | 0, xs => [xs]
  | fuel + 1, xs =>
    match pyFindIdx xs sep with
    | none => [xs]
    | some i => xs.take i :: pySplitAux sep fuel (xs.drop (i + sep.length))

/-- Python `xs.split(sep)` for a non-empty separator; in particular
`"".split(sep) = [""]`. -/
def pySplit (xs sep : List Char) : List (List Char) :=
  pySplitAux sep (xs.length + 1) xs

/-- Python `sep.join(l)`. -/
def pyJoin (sep : List Char) : List (List Char) → List Char
  | [] => []
  | [x] => x
  | x :: y :: rest => x ++ sep ++ pyJoin sep (y :: rest)

/-- Python `len(xs.split())`: the number of maximal runs of non-whitespace
characters. -/
def pyWordCount (xs : List Char) : Nat :=
  (xs.foldl
    (fun st c =>
      if isPyWs c then (st.1, false)
      else if st.2 then st else (st.1 + 1, true))
    ((0 : Nat), false)).1

/-- `needle` occurs as a contiguous run inside `hay` (Python `needle in hay`). -/
def listContains (hay needle : List Char) : Bool :=
  (List.range (hay.length + 1)).any (fun i => needle.isPrefixOf (hay.drop i))

/-- One chunk dictionary as built by the three strategies of
`ChunkingStrategy`: fields `text`, `start_pos`, `end_pos`, `type`
(the dictionary key `type` is rendered as `ctype`). -/
structure SpanChunk where
  text : List Char
  start_pos : Int
  end_pos : Int
  ctype : List Char
deriving DecidableEq

/-- `max(break_points)` of `create_chunks_by_size`: the right-most boundary
marker among `". "`, `"\n\n"`, `". \n"`, `"? "`, `"! "` in the window,
`-1` when none occurs. -/
def maxBreakPoint (chunk : List Char) : Int :=
  max (pyRfind chunk (". ".data))
    (max (pyRfind chunk ("\n\n".data))
      (max (pyRfind chunk (". \n".data))
        (max (pyRfind chunk ("? ".data)) (pyRfind chunk ("! ".data)))))

/-- `end = min(start + chunk_size, text_length)` of `create_chunks_by_size`. -/
def sizeEnd (text : List Char) (cs start : Int) : Int :=
  min (start + cs) (text.length : Int)

/-- The mutated window start of `create_chunks_by_size`:
`if start > 0: start = start - overlap`. -/
def sizeStart1 (o start : Int) : Int :=
  if 0 < start then start - o else start

/-- The raw window `chunk = text[start:end]` of `create_chunks_by_size`,
taken after the start mutation. -/
def sizeWindow (text : List Char) (cs o start : Int) : List Char :=
  pySlice text (sizeStart1 o start) (sizeEnd text cs start)

/-- The boundary-adjustment step of `create_chunks_by_size`: when the window
does not reach the end of the text and a boundary marker occurs, cut the
window at the marker and move `end` to `start + last_break + 1`. -/
def sizeTrim (text : List Char) (cs o start : Int) : List Char × Int :=
  if sizeEnd text cs start < (text.length : Int) then
    if maxBreakPoint (sizeWindow text cs o start) ≠ -1 then
      ((sizeWindow text cs o start).take (maxBreakPoint (sizeWindow text cs o start) + 1).toNat,
        sizeStart1 o start + maxBreakPoint (sizeWindow text cs o start) + 1)
    else (sizeWindow text cs o start, sizeEnd text cs start)
  else (sizeWindow text cs o start, sizeEnd text cs start)

/-- One iteration of the `while` loop of `create_chunks_by_size`: the emitted
chunk dictionary (with stripped text) and the next value of `start`
(`start = end - overlap`). -/
def sizeStep (text : List Char) (cs o start : Int) : SpanChunk × Int :=
  (⟨pyStrip (sizeTrim text cs o start).1, sizeStart1 o start, (sizeTrim text cs o start).2,
      "size_based".data⟩,
    (sizeTrim text cs o start).2 - o)

/-- The `while start < text_length` loop of `create_chunks_by_size`, with
fuel.  Returns the accumulated chunks and whether the guard became false
within the given fuel. -/
def sizeLoop (text : List Char) (cs o : Int) : Nat → Int → List SpanChunk → List SpanChunk × Bool
  | 0, start, acc =>
    if start < (text.length : Int) then (acc, false) else (acc, true)
  | fuel + 1, start, acc =>
    if start < (text.length : Int) then
      sizeLoop text cs o fuel (sizeStep text cs o start).2 (acc ++ [(sizeStep text cs o start).1])
    else (acc, true)

/-- `ChunkingStrategy.create_chunks_by_size(text, chunk_size, overlap)`
(defaults 2000 and 200), run with the given fuel. -/
def create_chunks_by_size (text : List Char) (cs o : Int) (fuel : Nat) : List SpanChunk × Bool :=
  sizeLoop text cs o fuel 0 []

/-- Existence of a match of `\s+` followed by `.*?\n` at the head of `t`
(the tail of the markdown-header pattern after the `#` run). -/
def matchTailWsAnyNl (t : List Char) : Bool :=
  (List.range (t.length + 1)).any (fun s =>
    decide (1 ≤ s) && decide (s ≤ t.length) && (t.take s).all isPyWs &&
      (t.drop s).any (fun c => c == '\n'))

/-- Existence of a match of the pattern `\n#` (1 to 6 times) `\s+.*?\n`
at the head of the argument (first of the three `section_patterns`). -/
def matchP1 : List Char → Bool
  | '\n' :: rest =>
    (List.range 7).any (fun m =>
      decide (1 ≤ m) && decide (m ≤ rest.length) &&
        (rest.take m).all (fun c => c == '#') && matchTailWsAnyNl (rest.drop m))
  | _ => false

/-- The residue `:` followed by a newline, closing the section-title pattern. -/
def matchColonNl : List Char → Bool
  | ':' :: '\n' :: _ => true
  | _ => false

/-- Existence of a match of the pattern newline, `[A-Z]`, `[^.!?]*`, `:`,
newline at the head of the argument (second of the `section_patterns`). -/
def matchP2 : List Char → Bool
  | '\n' :: c :: rest =>
    isUpper c && (List.range (rest.length + 1)).any (fun m =>
      (rest.take m).all (fun x => !(x == '.' || x == '!' || x == '?')) &&
        matchColonNl (rest.drop m))
  | _ => false

/-- Head of the argument is a newline. -/
def matchNlHead : List Char → Bool
  | '\n' :: _ => true
  | _ => false

/-- Existence of a match of `[A-Z][^.!?]*` followed by a newline at the head
of the argument. -/
def matchUpperNonNl : List Char → Bool
  | c :: u =>
    isUpper c && (List.range (u.length + 1)).any (fun m =>
      (u.take m).all (fun x => !(x == '.' || x == '!' || x == '?')) &&
        matchNlHead (u.drop m))
  | _ => false

/-- Existence of a match of `.` then `\s+` then `[A-Z][^.!?]*` then a newline
at the head of the argument (tail of the numbered-section pattern). -/
def matchDotWsUpper : List Char → Bool
  | '.' :: t =>
    (List.range (t.length + 1)).any (fun s =>
      decide (1 ≤ s) && decide (s ≤ t.length) && (t.take s).all isPyWs &&
        matchUpperNonNl (t.drop s))
  | _ => false

/-- Existence of a match of the pattern newline, `\d+`, `.`, `\s+`,
`[A-Z][^.!?]*`, newline at the head of the argument (third of the
`section_patterns`). -/
def matchP3 : List Char → Bool
  | '\n' :: rest =>
    (List.range (rest.length + 1)).any (fun d =>
      decide (1 ≤ d) && decide (d ≤ rest.length) && (rest.take d).all isDigitChar &&
        matchDotWsUpper (rest.drop d))
  | _ => false

/-- `matches[0].start()` of `re.finditer(pattern, s)`: the smallest position
of `s` at which the pattern matches, if any. -/
def reFirstMatchStart (p : List Char → Bool) (s : List Char) : Option Nat :=
  (List.range (s.length + 1)).find? (fun i => p (s.drop i))

/-- Fold one candidate position into the running minimum
(`next_section_start = min(next_section_start, pos)`, skipped when the
pattern has no match). -/
def optMinN (a : Nat) : Option Nat → Nat
  | none => a
  | some b => min a b

/-- `next_section_start` of `create_chunks_by_section`: the earliest match of
any of the three section patterns in `text[current_pos:]`, shifted by
`current_pos`, defaulted to `len(text)`. -/
def nextSectionStart (text : List Char) (pos : Nat) : Nat :=
  optMinN
    (optMinN
      (optMinN text.length ((reFirstMatchStart matchP1 (text.drop pos)).map (fun i => i + pos)))
      ((reFirstMatchStart matchP2 (text.drop pos)).map (fun i => i + pos)))
    ((reFirstMatchStart matchP3 (text.drop pos)).map (fun i => i + pos))

/-- The `while current_pos < text_length` loop of `create_chunks_by_section`,
with fuel; each iteration advances to `next_section_start + 1`, so fuel
`len(text) + 1` always completes the loop. -/
def sectionLoop (text : List Char) : Nat → Nat → List SpanChunk
  | 0, _ => []
  | fuel + 1, pos =>
    if pos < text.length then
      if pyStrip ((text.take (nextSectionStart text pos)).drop pos) = [] then
        sectionLoop text fuel (nextSectionStart text pos + 1)
      else
        ⟨pyStrip ((text.take (nextSectionStart text pos)).drop pos), (pos : Int),
            (nextSectionStart text pos : Int), "section_based".data⟩ ::
          sectionLoop text fuel (nextSectionStart text pos + 1)
    else []

/-- `ChunkingStrategy.create_chunks_by_section(text)`. -/
def create_chunks_by_section (text : List Char) : List SpanChunk :=
  sectionLoop text (text.length + 1) 0

/-- The paragraph-accumulation loop of `create_semantic_chunks`, including
the final flush of the last partial chunk.  The state is the remaining
paragraph list, `current_chunk` and `current_start`. -/
def semanticLoop (maxSize : Nat) : List (List Char) → List Char → Int → List SpanChunk
  | [], current, curStart =>
    if current ≠ [] then
      [⟨pyStrip current, curStart, curStart + (current.length : Int), "semantic".data⟩]
    else []
  | para :: rest, current, curStart =>
    if current.length + para.length < maxSize then
      semanticLoop maxSize rest (current ++ para ++ "\n\n".data) curStart
    else
      if current ≠ [] then
        ⟨pyStrip current, curStart, curStart + (current.length : Int), "semantic".data⟩ ::
          semanticLoop maxSize rest (para ++ "\n\n".data)
            (curStart + ((para ++ "\n\n".data).length : Int))
      else
        semanticLoop maxSize rest (para ++ "\n\n".data)
          (curStart + ((para ++ "\n\n".data).length : Int))

/-- `ChunkingStrategy.create_semantic_chunks(text, max_chunk_size)`
(default 2000). -/
def create_semantic_chunks (text : List Char) (maxSize : Nat) : List SpanChunk :=
  semanticLoop maxSize (pySplit text ("\n\n".data)) [] 0

/-- Mean of a list of rationals (`sum / len`); the spec-side mean used to
state the quality formula. -/
def listMean (xs : List ℚ) : ℚ :=
  xs.sum / (xs.length : ℚ)

/-- Population variance of a list of rationals; the spec-side variance used
to state the quality formula. -/
def popVariance (xs : List ℚ) : ℚ :=
  ((xs.map (fun x => (x - listMean xs) ^ 2)).sum) / (xs.length : ℚ)

/-- `evaluate_chunk_quality(chunks)`: 0 on the empty set, otherwise
`(1000 / variance) * coherence` when the variance of the stored text lengths
is positive and 0 otherwise, with coherence the fraction of chunks whose
text has more than 50 words. -/
def evaluate_chunk_quality (chunks : List SpanChunk) : ℚ :=
  if chunks = [] then 0
  else
    (if 0 <
        ((chunks.map
            (fun c =>
              ((c.text.length : ℚ) -
                  (chunks.map (fun c => (c.text.length : ℚ))).sum / (chunks.length : ℚ)) ^ 2)).sum)
          / (chunks.length : ℚ) then
      (1000 /
          (((chunks.map
              (fun c =>
                ((c.text.length : ℚ) -
                    (chunks.map (fun c => (c.text.length : ℚ))).sum / (chunks.length : ℚ)) ^ 2)).sum)
            / (chunks.length : ℚ))) *
        (((chunks.filter (fun c => decide (50 < pyWordCount c.text))).length : ℚ) /
          (chunks.length : ℚ))
    else 0)

/-- Python `max(items, key=lambda x: x[1])` on a list of keyed scores: the
running maximum is replaced only on a strictly larger score, so the first
item wins ties. -/
def pyMaxByValue : List (String × ℚ) → String × ℚ
  | [] => ("", 0)
  | x :: xs => xs.foldl (fun best y => if best.2 < y.2 then y else best) x

/-- `select_optimal_chunks(size_chunks, section_chunks, semantic_chunks)`:
score the three sets, take the key of the maximal score in the insertion
order size, section, semantic, and return the corresponding set. -/
def select_optimal_chunks (size_chunks section_chunks semantic_chunks : List SpanChunk) :
    List SpanChunk :=
  if (pyMaxByValue
        [("size", evaluate_chunk_quality size_chunks),
          ("section", evaluate_chunk_quality section_chunks),
          ("semantic", evaluate_chunk_quality semantic_chunks)]).1 = "size" then
    size_chunks
  else if (pyMaxByValue
        [("size", evaluate_chunk_quality size_chunks),
          ("section", evaluate_chunk_quality section_chunks),
          ("semantic", evaluate_chunk_quality semantic_chunks)]).1 = "section" then
    section_chunks
  else semantic_chunks

/-- One collected per-chunk result of `process_document_comparison`
(`comparison_service.py`): the extracted output text and the chunk it came
from. -/
structure ChunkResultC where
  text : List Char
  chunk_info : SpanChunk
deriving DecidableEq

/-- The per-chunk loop of `process_document_comparison`
(`comparison_service.py`): a raised service error (`none`) is logged and
skipped, any returned response appends exactly one result whose text is the
extracted `output.text` (defaulted to the empty string). -/
def process_chunks_loop (svc : Nat → Option (Option (List Char))) :
    Nat → List SpanChunk → List ChunkResultC
  | _, [] => []
  | i, c :: rest =>
    match svc i with
    | none => process_chunks_loop svc (i + 1) rest
    | some resp => ⟨resp.getD [], c⟩ :: process_chunks_loop svc (i + 1) rest

/-- The synthesis prompt of `synthesize_results` (`comparison_service.py`). -/
def synthesis_prompt (results : List ChunkResultC) : List Char :=
  "Synthesize the following analysis results:\n\n".data ++
    (results.map
      (fun r => "Section (".data ++ r.chunk_info.ctype ++ "):\n".data ++ r.text ++ "\n\n".data)).flatten

/-- `synthesize_results` (`comparison_service.py`): one synthesis call; on a
raised error, fall back to joining the raw chunk outputs with single
newlines. -/
def synthesize_results (results : List ChunkResultC)
    (synthSvc : List Char → Option (Option (List Char))) : List Char :=
  match synthSvc (synthesis_prompt results) with
  | some resp => resp.getD []
  | none => pyJoin ("\n".data) (results.map (fun r => r.text))

/-- The chunk-processing and synthesis stages of `process_document_comparison`
(`comparison_service.py`), given an already selected chunk list: collect the
per-chunk results and always hand them (empty or not) to
`synthesize_results`; no exception escapes, so the outer handler never turns
this into a failure. -/
def process_document_comparison_from_chunks (svc : Nat → Option (Option (List Char)))
    (synthSvc : List Char → Option (Option (List Char))) (chunks : List SpanChunk) :
    Option (List Char) :=
  some (synthesize_results (process_chunks_loop svc 0 chunks) synthSvc)

/-- The per-chunk loop of `DocumentProcessor.process_document_comparison`
(`comparision_service_pavs.py`): a raised service error is skipped, and a
returned response is appended only when its extracted text is non-empty
(`if result: chunk_results.append(result)`). -/
def pavs_collect_loop (svc : Nat → Option (Option (List Char))) :
    Nat → List (List Char) → List (List Char)
  | _, [] => []
  | i, _ :: rest =>
    match svc i with
    | none => pavs_collect_loop svc (i + 1) rest
    | some resp =>
      if resp.getD [] = [] then pavs_collect_loop svc (i + 1) rest
      else resp.getD [] :: pavs_collect_loop svc (i + 1) rest

/-- The synthesis prompt of `DocumentProcessor.synthesize_results`
(`comparision_service_pavs.py`). -/
def pavs_synthesis_prompt (results : List (List Char)) (origPrompt : List Char) : List Char :=
  "Synthesize the following analysis results into a coherent summary:\n\nAnalysis Sections:\n".data
    ++ pyJoin ("\n".data)
        (results.enum.map
          (fun p => ("Section " ++ toString (p.1 + 1) ++ ":\n").data ++ p.2 ++ "\n".data))
    ++ "\n\nOriginal Query Context:\n".data ++ origPrompt
    ++ "\n\nPlease provide:\n1. Executive Summary\n2. Key Findings\n3. Detailed Analysis\n4. Recommendations\n5. Next Steps".data

/-- `DocumentProcessor.synthesize_results` (`comparision_service_pavs.py`):
one synthesis call; on a raised error, fall back to the local concatenation
of a header, a failure notice and every raw chunk output, joined by blank
lines. -/
def pavs_synthesize_results (results : List (List Char))
    (synthSvc : List Char → Option (Option (List Char))) (origPrompt : List Char) : List Char :=
  match synthSvc (pavs_synthesis_prompt results origPrompt) with
  | some resp => resp.getD []
  | none =>
    pyJoin ("\n\n".data)
      ("# Analysis Summary".data ::
        "(Note: Detailed synthesis failed, showing individual analyses)".data :: results)

/-- The chunk-processing and synthesis stages of
`DocumentProcessor.process_document_comparison`
(`comparision_service_pavs.py`), given the chunked document: when zero
results were collected, `ValueError("No valid results obtained from
analysis")` is raised, the outer handler catches it and the pipeline returns
`None` (modelled `none`); otherwise the synthesis output is returned. -/
def pavs_process_document_comparison (svc : Nat → Option (Option (List Char)))
    (synthSvc : List Char → Option (Option (List Char))) (origPrompt : List Char)
    (chunks : List (List Char)) : Option (List Char) :=
  if pavs_collect_loop svc 0 chunks = [] then none
  else some (pavs_synthesize_results (pavs_collect_loop svc 0 chunks) synthSvc origPrompt)

/-! ## Helper lemmas -/

/-- The quality score of any single-chunk set is 0: the variance of one
length is 0, so the zero-variance branch is taken. -/
theorem evaluate_chunk_quality_singleton (c : SpanChunk) : evaluate_chunk_quality [c] = 0 := by
  simp [evaluate_chunk_quality]

/-- After one guarded iteration from `start = -198` on the two-character
text `"ab"`, the loop of `create_chunks_by_size` is back at `start = -198`:
the loop guard never becomes false. -/
theorem sizeLoop_ab_stuck (fuel : Nat) :
    ∀ acc : List SpanChunk, (sizeLoop ("ab".data) 2000 200 fuel (-198) acc).2 = false := by
  induction fuel with
  | zero => intro acc; rfl
  | succ n ih =>
    intro acc
    have hstep : sizeLoop ("ab".data) 2000 200 (n + 1) (-198) acc
        = sizeLoop ("ab".data) 2000 200 n (-198)
            (acc ++ [(sizeStep ("ab".data) 2000 200 (-198)).1]) := rfl
    rw [hstep]
    exact ih _

/-- Counterpart of `sizeLoop_ab_stuck` for the three-character text
`"abc"`, whose loop is pinned at `start = -197`. -/
theorem sizeLoop_abc_stuck (fuel : Nat) :
    ∀ acc : List SpanChunk, (sizeLoop ("abc".data) 2000 200 fuel (-197) acc).2 = false := by
  induction fuel with
  | zero => intro acc; rfl
  | succ n ih =>
    intro acc
    have hstep : sizeLoop ("abc".data) 2000 200 (n + 1) (-197) acc
        = sizeLoop ("abc".data) 2000 200 n (-197)
            (acc ++ [(sizeStep ("abc".data) 2000 200 (-197)).1]) := rfl
    rw [hstep]
    exact ih _

/-! ## Claim C1 -/

/-- C1: refuted on the code — for the two-character input text `"ab"` with
`chunk_size = 2000` and `overlap = 200` (so `0 < overlap < chunk_size`), the
size-based chunker never terminates: after the first iteration the loop
variable is pinned at `start = end - overlap = -198 < len(text)`, so for
every fuel bound the loop guard is still true and no finite chunk sequence
is ever returned. -/
theorem c1_size_chunker_never_terminates (fuel : Nat) :
    (create_chunks_by_size ("ab".data) 2000 200 fuel).2 = false := by
  cases fuel with
  | zero => rfl
  | succ n =>
    have hstep : create_chunks_by_size ("ab".data) 2000 200 (n + 1)
        = sizeLoop ("ab".data) 2000 200 n (-198) [(sizeStep ("ab".data) 2000 200 0).1] := rfl
    rw [hstep]
    exact sizeLoop_ab_stuck n _

/-! ## Claim C9 -/

/-- C9: refuted on the code through the same loop defect as C1 — on the
non-empty input `"abc"` (default parameters), the size-based chunker never
returns at all, so its spans cannot reconstruct anything; for every fuel
bound the loop guard is still true. -/
theorem c9_size_chunker_never_returns (fuel : Nat) :
    (create_chunks_by_size ("abc".data) 2000 200 fuel).2 = false := by
  cases fuel with
  | zero => rfl
  | succ n =>
    have hstep : create_chunks_by_size ("abc".data) 2000 200 (n + 1)
        = sizeLoop ("abc".data) 2000 200 n (-197) [(sizeStep ("abc".data) 2000 200 0).1] := rfl
    rw [hstep]
    exact sizeLoop_abc_stuck n _

/-! ## Counterexamples for the corrected claims -/

/-- C2 counterexample: in `comparison_service.py`, when every per-chunk call
raises (zero results collected), the pipeline does not report a failure — it
proceeds to synthesis with the empty result set and returns the synthesis
call's output as a success. -/
theorem c2_counterexample_canonical_proceeds :
    process_chunks_loop (fun _ => none) 0 [⟨"x".data, 0, 1, "size_based".data⟩] = [] ∧
    process_document_comparison_from_chunks (fun _ => none)
        (fun _ => some (some ("SYN".data))) [⟨"x".data, 0, 1, "size_based".data⟩]
      = some ("SYN".data) :=
  ⟨rfl, rfl⟩

/-- C3 counterexample: on ten `'a'`s with `chunk_size = 4`, `overlap = 2`,
the second emitted span has window length 6 > `chunk_size` (no boundary
marker trim applied), and its recorded start overlaps the previous span's
end by 4 > `overlap` characters. -/
theorem c3_counterexample_window_exceeds :
    ((create_chunks_by_size (List.replicate 10 'a') 4 2 2).1.map
        (fun c => ((c.text.length : Int), c.start_pos, c.end_pos)))
      = [(4, 0, 4), (6, 0, 6)] ∧ (4 : Int) < 6 ∧ (2 : Int) < 4 - 0 := by
  decide

/-- C6 counterexample: on the empty input text the semantic chunker does not
return an empty ChunkSet — `"".split("\n\n")` is `[""]`, so one span with
empty text and offsets `(0, 2)` is emitted. -/
theorem c6_counterexample_semantic_nonempty :
    create_semantic_chunks [] 2000 ≠ [] := by
  decide

/-- C7 counterexample: in `comparison_service.py`, when the synthesis call
fails the fallback report is the bare newline-join of the chunk outputs and
contains no notice that detailed synthesis failed. -/
theorem c7_counterexample_no_notice :
    synthesize_results [⟨"alpha".data, ⟨"x".data, 0, 1, "size_based".data⟩⟩] (fun _ => none)
      = "alpha".data ∧
    listContains ("alpha".data) ("synthesis failed".data) = false := by
  exact ⟨rfl, by decide⟩

/-- C8 counterexample: the semantic chunker (on `"aa\n\nbbbb\n\ncc"` with
`max_chunk_size = 5`) emits the span `⟨"bbbb", 6, 12⟩`, but the source
substring at `[6, 12)` is `"bb\n\ncc"` — the span's text is not that
substring, nor any trailing-trimmed prefix of it. -/
theorem c8_counterexample_text_mismatch :
    (⟨"bbbb".data, 6, 12, "semantic".data⟩ : SpanChunk)
        ∈ create_semantic_chunks ("aa\n\nbbbb\n\ncc".data) 5 ∧
    "bbbb".data ≠ pySlice ("aa\n\nbbbb\n\ncc".data) 6 12 ∧
    ("bbbb".data).isPrefixOf (pySlice ("aa\n\nbbbb\n\ncc".data) 6 12) = false := by
  decide

/-- C10 counterexample: in `comparision_service_pavs.py`, a run in which
every call succeeds but returns empty output appends no ChunkResult at all
(`if result:` skips empty strings) and the pipeline reports the
no-valid-results failure instead of proceeding to synthesis. -/
theorem c10_counterexample_pavs_empty_success :
    pavs_collect_loop (fun _ => some (some [])) 0 [['c']] = [] ∧
    pavs_process_document_comparison (fun _ => some (some []))
        (fun _ => some (some ("S".data))) [] [['c']] = none :=
  ⟨rfl, rfl⟩

/-- A normalised Python slice index never exceeds the string length. -/
theorem pyIdx_le (n : Nat) (i : Int) : pyIdx n i ≤ n := by
  unfold pyIdx
  split_ifs <;> omega

/-- The length of a Python slice is the difference of its normalised
bounds. -/
theorem length_pySlice (xs : List Char) (a b : Int) :
    (pySlice xs a b).length = pyIdx xs.length b - pyIdx xs.length a := by
  have hb := pyIdx_le xs.length b
  simp only [pySlice, List.length_drop, List.length_take]
  omega

/-- Stripping never lengthens a string. -/
theorem pyStrip_length_le (xs : List Char) : (pyStrip xs).length ≤ xs.length := by
  unfold pyStrip
  have h1 : (xs.dropWhile isPyWs).length ≤ xs.length := (List.dropWhile_sublist _).length_le
  have h2 : ((xs.dropWhile isPyWs).reverse.dropWhile isPyWs).length
      ≤ (xs.dropWhile isPyWs).reverse.length := (List.dropWhile_sublist _).length_le
  simp only [List.length_reverse] at h2 ⊢
  omega

/-- `rfind` returns at least `-1`. -/
theorem pyRfind_ge (xs pat : List Char) : -1 ≤ pyRfind xs pat := by
  unfold pyRfind
  suffices h : ∀ (l : List Nat) (r : Int), -1 ≤ r →
      -1 ≤ l.foldl (fun r i => if pat.isPrefixOf (xs.drop i) then (i : Int) else r) r by
    exact h _ _ (by norm_num)
  intro l
  induction l with
  | nil => intro r hr; simpa using hr
  | cons i t ih =>
    intro r hr
    simp only [List.foldl_cons]
    apply ih
    split_ifs
    · exact le_trans (by norm_num) (Int.natCast_nonneg i)
    · exact hr

/-- The maximal break point is at least `-1`. -/
theorem maxBreakPoint_ge (chunk : List Char) : -1 ≤ maxBreakPoint chunk :=
  le_trans (pyRfind_ge _ _) (le_max_left _ _)

/-- Under the loop guard, the raw window of one size-chunking iteration has
at most `chunk_size + overlap` characters (the start mutation widens the
nominal `chunk_size` window by up to `overlap`). -/
theorem sizeWindow_length_le (text : List Char) (cs o start : Int)
    (hcs : 0 ≤ cs) (ho : 0 ≤ o) (h : start < (text.length : Int)) :
    ((sizeWindow text cs o start).length : Int) ≤ cs + o := by
  unfold sizeWindow sizeEnd sizeStart1
  rw [length_pySlice]
  have hb := pyIdx_le text.length (min (start + cs) (text.length : Int))
  have ha := pyIdx_le text.length (if 0 < start then start - o else start)
  unfold pyIdx at *
  split_ifs at * <;> omega

/-- The trimmed window of one size-chunking iteration also has at most
`chunk_size + overlap` characters. -/
theorem sizeTrim_fst_length_le (text : List Char) (cs o start : Int)
    (hcs : 0 ≤ cs) (ho : 0 ≤ o) (h : start < (text.length : Int)) :
    (((sizeTrim text cs o start).1.length : Int)) ≤ cs + o := by
  unfold sizeTrim
  split_ifs
  · calc (((sizeWindow text cs o start).take
          (maxBreakPoint (sizeWindow text cs o start) + 1).toNat).length : Int)
        ≤ ((sizeWindow text cs o start).length : Int) := by
          exact_mod_cast (List.take_sublist _ _).length_le
      _ ≤ cs + o := sizeWindow_length_le text cs o start hcs ho h
  · exact sizeWindow_length_le text cs o start hcs ho h
  · exact sizeWindow_length_le text cs o start hcs ho h

/-- The stored (stripped) text of one emitted size chunk has at most
`chunk_size + overlap` characters. -/
theorem sizeStep_text_length_le (text : List Char) (cs o start : Int)
    (hcs : 0 ≤ cs) (ho : 0 ≤ o) (h : start < (text.length : Int)) :
    (((sizeStep text cs o start).1.text.length : Int)) ≤ cs + o := by
  have h1 : (pyStrip (sizeTrim text cs o start).1).length ≤ (sizeTrim text cs o start).1.length :=
    pyStrip_length_le _
  calc (((sizeStep text cs o start).1.text.length : Int))
      ≤ (((sizeTrim text cs o start).1.length : Int)) := by exact_mod_cast h1
    _ ≤ cs + o := sizeTrim_fst_length_le text cs o start hcs ho h

/-- Every emitted size chunk has `start_pos ≤ end_pos`. -/
theorem sizeStep_start_le_end (text : List Char) (cs o start : Int)
    (hcs : 0 ≤ cs) (ho : 0 ≤ o) (h : start < (text.length : Int)) :
    (sizeStep text cs o start).1.start_pos ≤ (sizeStep text cs o start).1.end_pos := by
  show sizeStart1 o start ≤ (sizeTrim text cs o start).2
  have hmb := maxBreakPoint_ge (sizeWindow text cs o start)
  unfold sizeTrim sizeEnd sizeStart1 at *
  split_ifs at * <;> omega

/-- The recorded start of one emitted size chunk is at least `start - o`. -/
theorem sizeStep_start_ge (text : List Char) (cs o start : Int) (ho : 0 ≤ o) :
    start - o ≤ (sizeStep text cs o start).1.start_pos := by
  show start - o ≤ sizeStart1 o start
  unfold sizeStart1
  split_ifs <;> omega

/-- The next loop variable is the recorded end minus the overlap. -/
theorem sizeStep_next_eq (text : List Char) (cs o start : Int) :
    (sizeStep text cs o start).2 = (sizeStep text cs o start).1.end_pos - o := rfl

/-- Loop invariant of `create_chunks_by_size`: every accumulated chunk obeys
the `chunk_size + overlap` text bound and `start_pos ≤ end_pos`, and
consecutive chunks overlap by at most `2 * overlap` recorded positions. -/
theorem sizeLoop_sound (text : List Char) (cs o : Int) (hcs : 0 ≤ cs) (ho : 0 ≤ o) :
    ∀ (fuel : Nat) (start : Int) (acc : List SpanChunk),
      (∀ c ∈ acc, (c.text.length : Int) ≤ cs + o ∧ c.start_pos ≤ c.end_pos) →
      List.Chain' (fun a b => a.end_pos - b.start_pos ≤ 2 * o) acc →
      (acc = [] ∨ ∃ c, acc.getLast? = some c ∧ start = c.end_pos - o) →
      (∀ c ∈ (sizeLoop text cs o fuel start acc).1,
          (c.text.length : Int) ≤ cs + o ∧ c.start_pos ≤ c.end_pos) ∧
        List.Chain' (fun a b => a.end_pos - b.start_pos ≤ 2 * o)
          (sizeLoop text cs o fuel start acc).1 := by
  intro fuel
  induction fuel with
  | zero =>
    intro start acc hacc hchain _
    unfold sizeLoop
    split_ifs <;> exact ⟨hacc, hchain⟩
  | succ n ih =>
    intro start acc hacc hchain hinv
    by_cases hg : start < (text.length : Int)
    · have hrw : sizeLoop text cs o (n + 1) start acc
          = sizeLoop text cs o n (sizeStep text cs o start).2
              (acc ++ [(sizeStep text cs o start).1]) := by
        simp [sizeLoop, hg]
      rw [hrw]
      apply ih
      · intro c hc
        rcases List.mem_append.mp hc with hmem | hmem
        · exact hacc c hmem
        · have : c = (sizeStep text cs o start).1 := by simpa using hmem
          subst this
          exact ⟨sizeStep_text_length_le text cs o start hcs ho hg,
            sizeStep_start_le_end text cs o start hcs ho hg⟩
      · refine List.chain'_append.mpr ⟨hchain, List.chain'_singleton _, ?_⟩
        intro x hx y hy
        have hy2 : (sizeStep text cs o start).1 = y := by simpa using hy
        subst hy2
        rcases hinv with h0 | ⟨c, hcl, hs⟩
        · subst h0; simp at hx
        · rw [hcl] at hx
          have hx2 : c = x := by simpa using hx
          subst hx2
          have h1 := sizeStep_start_ge text cs o start ho
          omega
      · right
        exact ⟨(sizeStep text cs o start).1, by simp, by rw [sizeStep_next_eq]⟩
    · have hrw : sizeLoop text cs o (n + 1) start acc = (acc, true) := by
        simp [sizeLoop, hg]
      rw [hrw]
      exact ⟨hacc, hchain⟩

/-- `optMinN` preserves a common lower bound. -/
theorem optMinN_ge {p a : Nat} (ob : Option Nat) (ha : p ≤ a) (hb : ∀ b ∈ ob, p ≤ b) :
    p ≤ optMinN a ob := by
  cases ob with
  | none => simpa [optMinN] using ha
  | some b => exact le_min ha (hb b rfl)

/-- The next section boundary is never before the current cursor. -/
theorem nextSectionStart_ge (text : List Char) (pos : Nat) (h : pos ≤ text.length) :
    pos ≤ nextSectionStart text pos := by
  unfold nextSectionStart
  refine optMinN_ge _ (optMinN_ge _ (optMinN_ge _ h ?_) ?_) ?_ <;>
    · intro b hb
      simp only [Option.mem_def, Option.map_eq_some'] at hb
      obtain ⟨i, _, rfl⟩ := hb
      omega

/-- Every span emitted by the section loop has `start_pos ≤ end_pos`. -/
theorem sectionLoop_start_le (text : List Char) :
    ∀ (fuel : Nat) (pos : Nat), ∀ c ∈ sectionLoop text fuel pos, c.start_pos ≤ c.end_pos := by
  intro fuel
  induction fuel with
  | zero => intro pos c hc; simp [sectionLoop] at hc
  | succ n ih =>
    intro pos c hc
    by_cases hg : pos < text.length
    · rw [show sectionLoop text (n + 1) pos
          = if pyStrip ((text.take (nextSectionStart text pos)).drop pos) = [] then
              sectionLoop text n (nextSectionStart text pos + 1)
            else
              ⟨pyStrip ((text.take (nextSectionStart text pos)).drop pos), (pos : Int),
                  (nextSectionStart text pos : Int), "section_based".data⟩ ::
                sectionLoop text n (nextSectionStart text pos + 1) by
        simp [sectionLoop, hg]] at hc
      by_cases he : pyStrip ((text.take (nextSectionStart text pos)).drop pos) = []
      · rw [if_pos he] at hc
        exact ih _ c hc
      · rw [if_neg he] at hc
        rcases List.mem_cons.mp hc with rfl | hmem
        · have := nextSectionStart_ge text pos (le_of_lt hg)
          simpa using Int.ofNat_le.mpr this
        · exact ih _ c hmem
    · simp [sectionLoop, hg] at hc

/-- Every span emitted by the semantic loop has `start_pos ≤ end_pos`. -/
theorem semanticLoop_start_le (maxSize : Nat) :
    ∀ (paras : List (List Char)) (current : List Char) (curStart : Int),
      ∀ c ∈ semanticLoop maxSize paras current curStart, c.start_pos ≤ c.end_pos := by
  intro paras
  induction paras with
  | nil =>
    intro current curStart c hc
    simp only [semanticLoop] at hc
    split_ifs at hc
    · have : c = ⟨pyStrip current, curStart, curStart + (current.length : Int), "semantic".data⟩ := by
        simpa using hc
      subst this
      simp only
      omega
    · simp at hc
  | cons p rest ih =>
    intro current curStart c hc
    simp only [semanticLoop] at hc
    split_ifs at hc
    · exact ih _ _ c hc
    · rcases List.mem_cons.mp hc with rfl | hmem
      · simp only
        omega
      · exact ih _ _ c hmem
    · exact ih _ _ c hc

/-! ## Claim C3 -/

/-- C3: the corrected window bounds for the size-based chunker.  Because the
code subtracts `overlap` from `start` again after computing `end`, every
emitted chunk's stored text has at most `chunk_size + overlap` characters
(the pre-trim window can reach `chunk_size + overlap`), and the recorded
offsets of consecutive spans overlap by at most `2 * overlap` characters;
this holds for all fuel bounds, i.e. for every finite prefix of the emitted
sequence. -/
theorem c3_size_window_bounds (text : List Char) (cs o : Int) (fuel : Nat)
    (hcs : 0 ≤ cs) (ho : 0 ≤ o) :
    (∀ c ∈ (create_chunks_by_size text cs o fuel).1, (c.text.length : Int) ≤ cs + o) ∧
      List.Chain' (fun a b => a.end_pos - b.start_pos ≤ 2 * o)
        (create_chunks_by_size text cs o fuel).1 := by
  have h := sizeLoop_sound text cs o hcs ho fuel 0 [] (by simp) (by simp) (Or.inl rfl)
  exact ⟨fun c hc => (h.1 c hc).1, h.2⟩

/-- C3 witness: on ten `'a'`s with `chunk_size = 4`, `overlap = 2`, the
emitted spans (including the oversized second one) respect the corrected
bounds. -/
theorem c3_size_window_bounds_witness :
    (0 : Int) ≤ 4 ∧ (0 : Int) ≤ 2 ∧
      ((∀ c ∈ (create_chunks_by_size (List.replicate 10 'a') 4 2 2).1,
          (c.text.length : Int) ≤ 4 + 2) ∧
        List.Chain' (fun a b => a.end_pos - b.start_pos ≤ 2 * 2)
          (create_chunks_by_size (List.replicate 10 'a') 4 2 2).1) :=
  ⟨by norm_num, by norm_num,
    c3_size_window_bounds (List.replicate 10 'a') 4 2 2 (by norm_num) (by norm_num)⟩

/-! ## Claim C8 -/

/-- C8: the corrected offset invariant.  Every span emitted by any of the
three chunkers satisfies `start_pos ≤ end_pos` (for the size-based chunker,
under nonnegative parameters and for every fuel bound); the stored text is
the stripped (and for the size-based chunker possibly boundary-trimmed)
window content, which — as the counterexample shows — need not equal the
substring of the source at the recorded offsets. -/
theorem c8_offsets_ordered (text : List Char) (cs o : Int) (fuel maxSize : Nat)
    (hcs : 0 ≤ cs) (ho : 0 ≤ o) :
    (∀ c ∈ (create_chunks_by_size text cs o fuel).1, c.start_pos ≤ c.end_pos) ∧
      (∀ c ∈ create_chunks_by_section text, c.start_pos ≤ c.end_pos) ∧
      (∀ c ∈ create_semantic_chunks text maxSize, c.start_pos ≤ c.end_pos) := by
  refine ⟨fun c hc => ?_, fun c hc => sectionLoop_start_le text _ 0 c hc,
    fun c hc => semanticLoop_start_le maxSize _ [] 0 c hc⟩
  exact ((sizeLoop_sound text cs o hcs ho fuel 0 [] (by simp) (by simp) (Or.inl rfl)).1 c hc).2

/-- C8 witness: the offset ordering instantiated on the text `"ab"` with the
default parameters. -/
theorem c8_offsets_ordered_witness :
    (0 : Int) ≤ 2000 ∧ (0 : Int) ≤ 200 ∧
      ((∀ c ∈ (create_chunks_by_size ("ab".data) 2000 200 1).1, c.start_pos ≤ c.end_pos) ∧
        (∀ c ∈ create_chunks_by_section ("ab".data), c.start_pos ≤ c.end_pos) ∧
        (∀ c ∈ create_semantic_chunks ("ab".data) 2000, c.start_pos ≤ c.end_pos)) :=
  ⟨by norm_num, by norm_num,
    c8_offsets_ordered ("ab".data) 2000 200 1 2000 (by norm_num) (by norm_num)⟩

/-! ## Claim C6 -/

/-- C6: corrected empty-input behaviour.  On the empty text the size-based
chunker exits immediately with no chunks (for every fuel and any
parameters), the section-based chunker returns the empty list, but the
semantic chunker returns one span with empty text and offsets `(0, 2)`
(since `"".split("\n\n") = [""]` and the synthetic separator is appended);
all three results nevertheless score 0. -/
theorem c6_empty_input :
    (∀ (cs o : Int) (fuel : Nat), create_chunks_by_size [] cs o fuel = ([], true)) ∧
      create_chunks_by_section [] = [] ∧
      create_semantic_chunks [] 2000 = [⟨[], 0, 2, "semantic".data⟩] ∧
      (∀ (cs o : Int) (fuel : Nat),
        evaluate_chunk_quality (create_chunks_by_size [] cs o fuel).1 = 0) ∧
      evaluate_chunk_quality (create_chunks_by_section []) = 0 ∧
      evaluate_chunk_quality (create_semantic_chunks [] 2000) = 0 := by
  have hsize : ∀ (cs o : Int) (fuel : Nat), create_chunks_by_size [] cs o fuel = ([], true) := by
    intro cs o fuel
    cases fuel <;> rfl
  refine ⟨hsize, rfl, by decide, ?_, rfl, ?_⟩
  · intro cs o fuel
    rw [hsize cs o fuel]
    rfl
  · rw [show create_semantic_chunks [] 2000 = [⟨[], 0, 2, "semantic".data⟩] by decide]
    exact evaluate_chunk_quality_singleton _

/-! ## Claim C4 -/

/-- C4: the quality score is 0 on the empty set; on a non-empty set it is
`(1000 / variance) * coherence_fraction` when the population variance of the
stored text lengths is positive and 0 when that variance is 0 — in
particular 0 on every single-span set. -/
theorem c4_quality_formula :
    evaluate_chunk_quality [] = 0 ∧
      (∀ chunks : List SpanChunk, chunks ≠ [] →
        (0 < popVariance (chunks.map (fun c => (c.text.length : ℚ))) →
          evaluate_chunk_quality chunks
            = (1000 / popVariance (chunks.map (fun c => (c.text.length : ℚ)))) *
                (((chunks.filter (fun c => decide (50 < pyWordCount c.text))).length : ℚ) /
                  (chunks.length : ℚ))) ∧
        (popVariance (chunks.map (fun c => (c.text.length : ℚ))) = 0 →
          evaluate_chunk_quality chunks = 0)) ∧
      (∀ c : SpanChunk, evaluate_chunk_quality [c] = 0) := by
  refine ⟨rfl, ?_, evaluate_chunk_quality_singleton⟩
  intro chunks h
  have hv : (chunks.map
        (fun c =>
          ((c.text.length : ℚ) -
              (chunks.map (fun c => (c.text.length : ℚ))).sum / (chunks.length : ℚ)) ^ 2)).sum /
        (chunks.length : ℚ)
      = popVariance (chunks.map (fun c => (c.text.length : ℚ))) := by
    simp [popVariance, listMean, List.map_map, Function.comp_def]
  constructor
  · intro hpos
    unfold evaluate_chunk_quality
    rw [if_neg h, hv, if_pos hpos]
  · intro hzero
    unfold evaluate_chunk_quality
    rw [if_neg h, hv, if_neg (by simp [hzero])]

/-- C4 witness: a two-span set with text lengths 0 and 2 has variance 1 > 0,
and the score is the claimed product. -/
theorem c4_quality_formula_witness :
    ([⟨[], 0, 0, "t".data⟩, ⟨"ab".data, 0, 2, "t".data⟩] : List SpanChunk) ≠ [] ∧
      0 < popVariance
          (([⟨[], 0, 0, "t".data⟩, ⟨"ab".data, 0, 2, "t".data⟩] : List SpanChunk).map
            (fun c => (c.text.length : ℚ))) ∧
      evaluate_chunk_quality [⟨[], 0, 0, "t".data⟩, ⟨"ab".data, 0, 2, "t".data⟩]
        = (1000 / popVariance
              (([⟨[], 0, 0, "t".data⟩, ⟨"ab".data, 0, 2, "t".data⟩] : List SpanChunk).map
                (fun c => (c.text.length : ℚ)))) *
            ((((([⟨[], 0, 0, "t".data⟩, ⟨"ab".data, 0, 2, "t".data⟩] : List SpanChunk).filter
                  (fun c => decide (50 < pyWordCount c.text))).length : ℚ)) /
              ((([⟨[], 0, 0, "t".data⟩, ⟨"ab".data, 0, 2, "t".data⟩] : List SpanChunk).length : ℚ))) := by
  have h2 : 0 < popVariance
      (([⟨[], 0, 0, "t".data⟩, ⟨"ab".data, 0, 2, "t".data⟩] : List SpanChunk).map
        (fun c => (c.text.length : ℚ))) := by
    norm_num [popVariance, listMean]
  exact ⟨by simp, h2, (c4_quality_formula.2.1 _ (by simp)).1 h2⟩

/-! ## Claim C5 -/

/-- Python's first-wins `max` by value on a three-element keyed list, in
closed form. -/
theorem pyMaxByValue_three (sx sy sz : String) (a b c : ℚ) :
    pyMaxByValue [(sx, a), (sy, b), (sz, c)]
      = if a < b then (if b < c then (sz, c) else (sy, b))
        else (if a < c then (sz, c) else (sx, a)) := by
  unfold pyMaxByValue
  simp only [List.foldl_cons, List.foldl_nil]
  by_cases h1 : a < b
  · simp only [if_pos h1]
  · simp only [if_neg h1]

/-- C5: the selector returns a chunk set whose score is the maximum of the
three scores, and ties are broken deterministically in the fixed priority
order size, section, semantic. -/
theorem c5_selector_max_and_ties (s1 s2 s3 : List SpanChunk) :
    evaluate_chunk_quality (select_optimal_chunks s1 s2 s3)
        = max (evaluate_chunk_quality s1)
            (max (evaluate_chunk_quality s2) (evaluate_chunk_quality s3)) ∧
      (evaluate_chunk_quality s2 ≤ evaluate_chunk_quality s1 →
        evaluate_chunk_quality s3 ≤ evaluate_chunk_quality s1 →
          select_optimal_chunks s1 s2 s3 = s1) ∧
      (evaluate_chunk_quality s1 < evaluate_chunk_quality s2 →
        evaluate_chunk_quality s3 ≤ evaluate_chunk_quality s2 →
          select_optimal_chunks s1 s2 s3 = s2) ∧
      (evaluate_chunk_quality s1 < evaluate_chunk_quality s3 →
        evaluate_chunk_quality s2 < evaluate_chunk_quality s3 →
          select_optimal_chunks s1 s2 s3 = s3) := by
  set a := evaluate_chunk_quality s1 with ha
  set b := evaluate_chunk_quality s2 with hb
  set c := evaluate_chunk_quality s3 with hc
  have hsel : select_optimal_chunks s1 s2 s3
      = if a < b then (if b < c then s3 else s2) else (if a < c then s3 else s1) := by
    unfold select_optimal_chunks
    rw [← ha, ← hb, ← hc, pyMaxByValue_three]
    by_cases h1 : a < b
    · by_cases h2 : b < c
      · simp only [if_pos h1, if_pos h2]
        rfl
      · simp only [if_pos h1, if_neg h2]
        rfl
    · by_cases h3 : a < c
      · simp only [if_neg h1, if_pos h3]
        rfl
      · simp only [if_neg h1, if_neg h3]
        rfl
  rw [hsel]
  refine ⟨?_, ?_, ?_, ?_⟩
  · by_cases h1 : a < b
    · by_cases h2 : b < c
      · rw [if_pos h1, if_pos h2, ← hc, max_eq_right (le_of_lt h2),
          max_eq_right (le_of_lt (h1.trans h2))]
      · rw [if_pos h1, if_neg h2, ← hb, max_eq_left (not_lt.mp h2), max_eq_right (le_of_lt h1)]
    · by_cases h3 : a < c
      · rw [if_neg h1, if_pos h3, ← hc,
          max_eq_right (le_of_lt (lt_of_le_of_lt (not_lt.mp h1) h3)), max_eq_right (le_of_lt h3)]
      · rw [if_neg h1, if_neg h3, ← ha,
          max_eq_left (max_le (not_lt.mp h1) (not_lt.mp h3))]
  · intro hba hca
    rw [if_neg (not_lt.mpr hba), if_neg (not_lt.mpr hca)]
  · intro hab hcb
    rw [if_pos hab, if_neg (not_lt.mpr hcb)]
  · intro hac hbc
    by_cases h1 : a < b
    · rw [if_pos h1, if_pos hbc]
    · rw [if_neg h1, if_pos hac]

/-- C5 witness: three single-span sets all score 0 (a three-way tie), and
the selector deterministically returns the size-based set. -/
theorem c5_selector_witness :
    evaluate_chunk_quality [⟨"b".data, 0, 1, "t".data⟩]
        ≤ evaluate_chunk_quality [⟨"aa".data, 0, 2, "t".data⟩] ∧
      evaluate_chunk_quality ([] : List SpanChunk)
        ≤ evaluate_chunk_quality [⟨"aa".data, 0, 2, "t".data⟩] ∧
      select_optimal_chunks [⟨"aa".data, 0, 2, "t".data⟩] [⟨"b".data, 0, 1, "t".data⟩] []
        = [⟨"aa".data, 0, 2, "t".data⟩] := by
  have h1 : evaluate_chunk_quality [⟨"b".data, 0, 1, "t".data⟩]
      ≤ evaluate_chunk_quality [⟨"aa".data, 0, 2, "t".data⟩] := by
    rw [evaluate_chunk_quality_singleton, evaluate_chunk_quality_singleton]
  have h2 : evaluate_chunk_quality ([] : List SpanChunk)
      ≤ evaluate_chunk_quality [⟨"aa".data, 0, 2, "t".data⟩] := by
    rw [evaluate_chunk_quality_singleton]
    rfl
  exact ⟨h1, h2, (c5_selector_max_and_ties _ _ _).2.1 h1 h2⟩

/-- A list is a boolean prefix of itself followed by anything. -/
theorem isPrefixOf_append_self (x t : List Char) : x.isPrefixOf (x ++ t) = true := by
  induction x with
  | nil => simp
  | cons a as ih => simp [List.isPrefixOf, ih]

/-- If `hay` decomposes around `needle`, then `listContains` finds it. -/
theorem listContains_of_decomp (hay needle pre post : List Char)
    (h : hay = pre ++ needle ++ post) : listContains hay needle = true := by
  subst h
  unfold listContains
  rw [List.any_eq_true]
  refine ⟨pre.length, ?_, ?_⟩
  · rw [List.mem_range, List.length_append, List.length_append]
    omega
  · rw [List.append_assoc, List.drop_left]
    exact isPrefixOf_append_self needle post

/-- Every member of a joined list appears between some prefix and suffix of
the join. -/
theorem pyJoin_mem_decomp (sep : List Char) :
    ∀ (l : List (List Char)) (x : List Char), x ∈ l →
      ∃ pre post, pyJoin sep l = pre ++ x ++ post := by
  intro l
  induction l with
  | nil => intro x hx; simp at hx
  | cons y t ih =>
    intro x hx
    cases t with
    | nil =>
      have hxy : x = y := by simpa using hx
      subst hxy
      exact ⟨[], [], by simp [pyJoin]⟩
    | cons z t2 =>
      rcases List.mem_cons.mp hx with rfl | hx2
      · exact ⟨[], sep ++ pyJoin sep (z :: t2), by simp [pyJoin]⟩
      · obtain ⟨pre, post, hpp⟩ := ih x hx2
        exact ⟨y ++ sep ++ pre, post, by simp [pyJoin, hpp]⟩

/-- Every member of a joined list is found by `listContains` in the join. -/
theorem listContains_pyJoin (sep : List Char) (l : List (List Char)) (x : List Char)
    (hx : x ∈ l) : listContains (pyJoin sep l) x = true := by
  obtain ⟨pre, post, hpp⟩ := pyJoin_mem_decomp sep l x hx
  exact listContains_of_decomp _ _ pre post hpp

/-! ## Claim C7 -/

/-- C7: corrected fallback behaviour.  When the synthesis call fails, the
`DocumentProcessor` variant returns, with no further external call, a report
containing the notice that detailed synthesis failed together with every
individual chunk result's text; the `comparison_service.py` variant instead
falls back to the bare newline-join of the chunk outputs, with no notice. -/
theorem c7_fallback_contents :
    (∀ (svc : List Char → Option (Option (List Char))) (results : List (List Char))
        (origPrompt : List Char),
      svc (pavs_synthesis_prompt results origPrompt) = none →
        listContains (pavs_synthesize_results results svc origPrompt)
            ("(Note: Detailed synthesis failed, showing individual analyses)".data) = true ∧
          ∀ r ∈ results,
            listContains (pavs_synthesize_results results svc origPrompt) r = true) ∧
      (∀ (svc : List Char → Option (Option (List Char))) (results : List ChunkResultC),
        svc (synthesis_prompt results) = none →
          synthesize_results results svc = pyJoin ("\n".data) (results.map (fun r => r.text))) := by
  constructor
  · intro svc results origPrompt h
    have hout : pavs_synthesize_results results svc origPrompt
        = pyJoin ("\n\n".data)
            ("# Analysis Summary".data ::
              "(Note: Detailed synthesis failed, showing individual analyses)".data :: results) := by
      unfold pavs_synthesize_results
      rw [h]
    rw [hout]
    refine ⟨listContains_pyJoin _ _ _ (by simp), ?_⟩
    intro r hr
    exact listContains_pyJoin _ _ _ (by simp [hr])
  · intro svc results h
    unfold synthesize_results
    rw [h]

/-- C7 witness: a failing synthesis oracle on one chunk result — the
fallback report contains both the failure notice and the chunk's text. -/
theorem c7_fallback_witness :
    ((fun _ => (none : Option (Option (List Char))))
        (pavs_synthesis_prompt ["alpha".data] ("p".data)) = none) ∧
      listContains (pavs_synthesize_results ["alpha".data] (fun _ => none) ("p".data))
          ("(Note: Detailed synthesis failed, showing individual analyses)".data) = true ∧
      listContains (pavs_synthesize_results ["alpha".data] (fun _ => none) ("p".data))
          ("alpha".data) = true := by
  have h := c7_fallback_contents.1 (fun _ => none) ["alpha".data] ("p".data) rfl
  exact ⟨rfl, h.1, h.2 _ (by simp)⟩

/-- When every per-chunk call raises, the canonical loop collects nothing. -/
theorem process_chunks_loop_all_fail (chunks : List SpanChunk) :
    ∀ k, process_chunks_loop (fun _ => none) k chunks = [] := by
  induction chunks with
  | nil => intro k; rfl
  | cons c rest ih => intro k; exact ih (k + 1)

/-- The pavs loop collects nothing exactly when every call in range either
raises or yields an empty extracted text. -/
theorem pavs_collect_loop_eq_nil_iff (svc : Nat → Option (Option (List Char)))
    (chunks : List (List Char)) :
    ∀ k, pavs_collect_loop svc k chunks = [] ↔
      ∀ j, j < chunks.length → ∀ resp, svc (k + j) = some resp → resp.getD [] = [] := by
  induction chunks with
  | nil => intro k; simp [pavs_collect_loop]
  | cons c rest ih =>
    intro k
    constructor
    · intro h j hj resp hr
      cases hs : svc k with
      | none =>
        have hstep : pavs_collect_loop svc k (c :: rest) = pavs_collect_loop svc (k + 1) rest := by
          simp [pavs_collect_loop, hs]
        rw [hstep] at h
        cases j with
        | zero =>
          rw [Nat.add_zero, hs] at hr
          cases hr
        | succ j2 =>
          refine (ih (k + 1)).mp h j2 (by simpa using hj) resp ?_
          rw [show k + 1 + j2 = k + (j2 + 1) by omega]
          exact hr
      | some resp2 =>
        by_cases he : resp2.getD [] = []
        · have hstep : pavs_collect_loop svc k (c :: rest) = pavs_collect_loop svc (k + 1) rest := by
            simp [pavs_collect_loop, hs, he]
          rw [hstep] at h
          cases j with
          | zero =>
            rw [Nat.add_zero, hs] at hr
            cases hr
            exact he
          | succ j2 =>
            refine (ih (k + 1)).mp h j2 (by simpa using hj) resp ?_
            rw [show k + 1 + j2 = k + (j2 + 1) by omega]
            exact hr
        · exfalso
          have hstep : pavs_collect_loop svc k (c :: rest)
              = resp2.getD [] :: pavs_collect_loop svc (k + 1) rest := by
            simp [pavs_collect_loop, hs, he]
          rw [hstep] at h
          cases h
    · intro hall
      have h2 : pavs_collect_loop svc (k + 1) rest = [] := by
        refine (ih (k + 1)).mpr ?_
        intro j hj resp hr
        refine hall (j + 1) (by simpa using hj) resp ?_
        rw [show k + (j + 1) = k + 1 + j by omega]
        exact hr
      cases hs : svc k with
      | none => simp [pavs_collect_loop, hs, h2]
      | some resp2 =>
        have he : resp2.getD [] = [] := hall 0 (by simp) resp2 (by rwa [Nat.add_zero])
        simp [pavs_collect_loop, hs, he, h2]

/-! ## Claim C2 -/

/-- C2: corrected failure policy.  In `comparison_service.py`, when every
per-chunk call fails the pipeline does not report a hard failure: it always
proceeds to `synthesize_results`, there with the empty result list.  In
`comparision_service_pavs.py`, the pipeline reports the no-valid-results
hard failure exactly when no call in range produced a non-empty output text
— i.e. also when calls succeed but return empty output, not only when all
calls fail. -/
theorem c2_failure_policy :
    (∀ (synthSvc : List Char → Option (Option (List Char))) (chunks : List SpanChunk),
      process_document_comparison_from_chunks (fun _ => none) synthSvc chunks
        = some (synthesize_results [] synthSvc)) ∧
      (∀ (svc : Nat → Option (Option (List Char)))
          (synthSvc : List Char → Option (Option (List Char)))
          (origPrompt : List Char) (chunks : List (List Char)),
        pavs_process_document_comparison svc synthSvc origPrompt chunks = none ↔
          ∀ j, j < chunks.length → ∀ resp, svc j = some resp → resp.getD [] = []) := by
  constructor
  · intro synthSvc chunks
    unfold process_document_comparison_from_chunks
    rw [process_chunks_loop_all_fail chunks 0]
  · intro svc synthSvc origPrompt chunks
    unfold pavs_process_document_comparison
    by_cases h : pavs_collect_loop svc 0 chunks = []
    · rw [if_pos h]
      constructor
      · intro _ j hj resp hr
        exact (pavs_collect_loop_eq_nil_iff svc chunks 0).mp h j hj resp (by simpa using hr)
      · intro _; rfl
    · rw [if_neg h]
      constructor
      · intro hx; cases hx
      · intro hall
        refine absurd ((pavs_collect_loop_eq_nil_iff svc chunks 0).mpr ?_) h
        intro j hj resp hr
        exact hall j hj resp (by simpa using hr)

/-- C2 witness: with an all-failing per-chunk oracle on one chunk, the pavs
pipeline reports the hard failure. -/
theorem c2_failure_policy_witness :
    pavs_process_document_comparison (fun _ => none) (fun _ => some (some ("S".data)))
      ("p".data) [['c']] = none := by
  refine (c2_failure_policy.2 _ _ _ _).mpr ?_
  intro j hj resp hr
  simp at hr

/-- Canonical loop: every non-raising call appends exactly one result. -/
theorem process_chunks_loop_length (svc : Nat → Option (Option (List Char)))
    (chunks : List SpanChunk) :
    ∀ k, (∀ i, (svc i).isSome = true) →
      (process_chunks_loop svc k chunks).length = chunks.length := by
  induction chunks with
  | nil => intro k _; rfl
  | cons c rest ih =>
    intro k hall
    cases hs : svc k with
    | none =>
      have := hall k
      rw [hs] at this
      cases this
    | some resp =>
      have hstep : process_chunks_loop svc k (c :: rest)
          = ⟨resp.getD [], c⟩ :: process_chunks_loop svc (k + 1) rest := by
        simp [process_chunks_loop, hs]
      rw [hstep, List.length_cons, ih (k + 1) hall, List.length_cons]

/-- Canonical loop under all-successful empty outputs: every chunk yields
one appended result with empty text. -/
theorem process_chunks_loop_empty_success (chunks : List SpanChunk) :
    ∀ k, process_chunks_loop (fun _ => some (some [])) k chunks
      = chunks.map (fun c => ⟨[], c⟩) := by
  induction chunks with
  | nil => intro k; rfl
  | cons c rest ih =>
    intro k
    rw [List.map_cons, ← ih (k + 1)]
    rfl

/-- Pavs loop under all-successful empty outputs: nothing is collected. -/
theorem pavs_collect_loop_empty_success (chunks : List (List Char)) :
    ∀ k, pavs_collect_loop (fun _ => some (some [])) k chunks = [] := by
  induction chunks with
  | nil => intro k; rfl
  | cons c rest ih => intro k; exact ih (k + 1)

/-! ## Claim C10 -/

/-- C10: corrected empty-output handling.  In `comparison_service.py`'s loop
every call that returns without raising appends exactly one ChunkResult —
in particular an all-empty-success run appends one empty-text result per
chunk and still proceeds to synthesis.  In `comparision_service_pavs.py`'s
loop, however, empty outputs are skipped, so an all-empty-success run
collects nothing and the pipeline reports the no-valid-results failure. -/
theorem c10_empty_output_handling :
    (∀ (svc : Nat → Option (Option (List Char))) (chunks : List SpanChunk),
      (∀ i, (svc i).isSome = true) →
        (process_chunks_loop svc 0 chunks).length = chunks.length) ∧
      (∀ chunks : List SpanChunk,
        process_chunks_loop (fun _ => some (some [])) 0 chunks
          = chunks.map (fun c => ⟨[], c⟩)) ∧
      (∀ (synthSvc : List Char → Option (Option (List Char))) (origPrompt : List Char)
          (chunks : List (List Char)),
        pavs_process_document_comparison (fun _ => some (some [])) synthSvc origPrompt chunks
          = none) := by
  refine ⟨fun svc chunks h => process_chunks_loop_length svc chunks 0 h,
    fun chunks => process_chunks_loop_empty_success chunks 0, ?_⟩
  intro synthSvc origPrompt chunks
  unfold pavs_process_document_comparison
  rw [pavs_collect_loop_empty_success chunks 0]
  rfl

/-- C10 witness: a succeeding oracle on one chunk appends exactly one
result. -/
theorem c10_empty_output_witness :
    (((fun _ => some (some ("S".data))) : Nat → Option (Option (List Char))) 0).isSome = true ∧
      (process_chunks_loop (fun _ => some (some ("S".data))) 0
          [⟨"x".data, 0, 1, "size_based".data⟩]).length = 1 := by
  refine ⟨rfl, ?_⟩
  have h := c10_empty_output_handling.1 (fun _ => some (some ("S".data)))
      [⟨"x".data, 0, 1, "size_based".data⟩] (fun i => rfl)
  simpa using h
